import Mathlib

/-!
Verification development for the `ollie` command-line tool (Go), a utility
that saves Ollama models to tar archives and loads them back.

The Go sources are shallowly embedded below:

* `parseModelName` (cmd/save.go) — the five-pattern reference parser.  The Go
  code matches each input against a fixed list of anchored regular
  expressions.  Each regular expression used there is a sequence of
  one-or-more character-class groups (`[^/]+`, `[^:]+`, `.+`) separated by
  literal delimiters, where every `+`-class excludes the character of the
  literal that follows it; for such patterns the leftmost-first (greedy)
  regex semantics coincides with deterministic maximal munch, which is how
  the matcher `matchToks` below is written.  `.` in Go's regexp package
  matches any character except a newline, and the patterns are anchored with
  `^`/`$` (end of text), so a pattern matches exactly the whole input.
* `parseManifest`, `getFilePaths`, `createTarball` (cmd/save.go) — manifest
  reading is modelled with an oracle `String → Option Manifest` combining
  `os.ReadFile` and `json.Unmarshal`; the byte contents of regular files are
  modelled by a map from path to `FileData`.
* `extractTarball` (cmd/load.go) — the tar stream decoded through the
  selected codec is modelled as an `Option (List TarEntry)` (`none` when the
  archive file cannot be opened); the filesystem state tracks regular files,
  created directories, and the ownership explicitly applied via `os.Chown`.
* `getOllamaModelsPath`, `getOllamaUIDGID` (cmd/util.go, the revision that
  includes the system-path fallback and the ollama user lookup, which
  cmd/load.go requires).
* the `save` command's `RunE` (cmd/save.go) as `runSave`.

`filepath.Join` is modelled for the clean relative components used by this
program: it joins the non-empty components with `/` (Go additionally applies
`Clean`, which is the identity on such components).
-/

/-! ### Model-name parsing (cmd/save.go, parseModelName) -/

/-- A token of the anchored regular expressions used by `parseModelName`:
a capturing group `[^c]+` (`plusNot c`), a capturing group `.+` (`plusDot`,
matching any character except a newline), or a literal character. -/
inductive Tok
  | plusNot (c : Char)
  | plusDot
  | lit (c : Char)
deriving Repr, DecidableEq

/-- Split a character list at the first occurrence of `c`: the first
component is the maximal prefix not containing `c`, the second is the rest
(starting with `c` when present). -/
def spanNe (c : Char) : List Char → List Char × List Char
  | [] => ([], [])
  | x :: xs =>
    if x = c then ([], x :: xs)
    else
      let p := spanNe c xs
      (x :: p.1, p.2)

/-- Whole-string matcher for a token sequence, returning the list of
captured groups on success.  Greedy maximal munch; for the patterns of
`parseModelName` this coincides with Go's regexp semantics (each `+`-class
excludes the delimiter that follows it, and `.+` occurs only at the end). -/
def matchToks : List Tok → List Char → Option (List (List Char))
  | [], s => if s = [] then some [] else none
  | Tok.lit c :: ts, s =>
    match s with
    | [] => none
    | x :: xs => if x = c then matchToks ts xs else none
  | Tok.plusNot c :: ts, s =>
    let p := spanNe c s
    if p.1 = [] then none else (matchToks ts p.2).map (fun caps => p.1 :: caps)
  | Tok.plusDot :: ts, s =>
    let p := spanNe '\n' s
    if p.1 = [] then none else (matchToks ts p.2).map (fun caps => p.1 :: caps)

/-- Parsed components of an Ollama model name (struct ModelName). -/
structure ModelName where
  Host : String
  Namespace : String
  Model : String
  Tag : String
deriving Repr, DecidableEq

/-- The named capture groups appearing in the patterns. -/
inductive CapGroup
  | host
  | nspace
  | model
  | tag
deriving Repr, DecidableEq

/-- Overwrite one field of the result from a named capture group, as the
Go loop over `re.SubexpNames()` does. -/
def applyGroup : CapGroup → List Char → ModelName → ModelName
  | CapGroup.host, v, r => { r with Host := ⟨v⟩ }
  | CapGroup.nspace, v, r => { r with Namespace := ⟨v⟩ }
  | CapGroup.model, v, r => { r with Model := ⟨v⟩ }
  | CapGroup.tag, v, r => { r with Tag := ⟨v⟩ }

/-- Apply the captured groups, in order, over the defaults. -/
def applyCaps : List CapGroup → List (List Char) → ModelName → ModelName
  | g :: gs, v :: vs, r => applyCaps gs vs (applyGroup g v r)
  | _, _, r => r

/-- The defaults installed before the captures overwrite them. -/
def baseModelName : ModelName :=
  { Host := "registry.ollama.ai", Namespace := "library", Model := "", Tag := "latest" }

/-- Pattern 1: `^(?P<host>[^/]+)/(?P<namespace>[^/]+)/(?P<model>[^:]+):(?P<tag>.+)$`. -/
def pat1 : List Tok :=
  [Tok.plusNot '/', Tok.lit '/', Tok.plusNot '/', Tok.lit '/', Tok.plusNot ':', Tok.lit ':', Tok.plusDot]

/-- Pattern 2: `^(?P<namespace>[^/]+)/(?P<model>[^:]+):(?P<tag>.+)$`. -/
def pat2 : List Tok :=
  [Tok.plusNot '/', Tok.lit '/', Tok.plusNot ':', Tok.lit ':', Tok.plusDot]

/-- Pattern 3: `^(?P<namespace>[^/]+)/(?P<model>[^:]+)$`. -/
def pat3 : List Tok := [Tok.plusNot '/', Tok.lit '/', Tok.plusNot ':']

/-- Pattern 4: `^(?P<model>[^:]+):(?P<tag>.+)$`. -/
def pat4 : List Tok := [Tok.plusNot ':', Tok.lit ':', Tok.plusDot]

/-- Pattern 5: `^(?P<model>[^:]+)$`. -/
def pat5 : List Tok := [Tok.plusNot ':']

def groups1 : List CapGroup := [CapGroup.host, CapGroup.nspace, CapGroup.model, CapGroup.tag]

def groups2 : List CapGroup := [CapGroup.nspace, CapGroup.model, CapGroup.tag]

def groups3 : List CapGroup := [CapGroup.nspace, CapGroup.model]

def groups4 : List CapGroup := [CapGroup.model, CapGroup.tag]

def groups5 : List CapGroup := [CapGroup.model]

/-- parseModelName (cmd/save.go): try the five patterns in order, first
match wins; on a match, start from the defaults and overwrite each captured
field; on no match, fail. -/
def parseModelName (name : String) : Except String ModelName :=
  match matchToks pat1 name.data with
  | some caps => .ok (applyCaps groups1 caps baseModelName)
  | none =>
  match matchToks pat2 name.data with
  | some caps => .ok (applyCaps groups2 caps baseModelName)
  | none =>
  match matchToks pat3 name.data with
  | some caps => .ok (applyCaps groups3 caps baseModelName)
  | none =>
  match matchToks pat4 name.data with
  | some caps => .ok (applyCaps groups4 caps baseModelName)
  | none =>
  match matchToks pat5 name.data with
  | some caps => .ok (applyCaps groups5 caps baseModelName)
  | none => .error ("invalid model name format: " ++ name)

/-! ### Path handling (filepath.Join for the clean components used here) -/

/-- Join path components with `/` (no cleaning; see `filepathJoin`). -/
def joinParts : List String → String
  | [] => ""
  | [p] => p
  | p :: q :: rest => p ++ "/" ++ joinParts (q :: rest)

/-- Models Go `filepath.Join` on the clean relative components this program
uses: non-empty components are joined with `/` (Go additionally applies
`Clean`, the identity on such components). -/
def filepathJoin (parts : List String) : String :=
  joinParts (parts.filter (fun p => p ≠ ""))

/-- Models Go `filepath.Dir` for the clean paths used here: everything
before the final path element (`"."` when there is no separator). -/
def filepathDir (p : String) : String :=
  match (p.splitOn "/").dropLast with
  | [] => "."
  | parts => String.intercalate "/" parts

/-- Character-list prefix test (the model of Go `strings.HasPrefix`, and,
reversed, of `strings.HasSuffix`). -/
def isPre : List Char → List Char → Bool
  | [], _ => true
  | _ :: _, [] => false
  | a :: as, b :: bs => a = b && isPre as bs

/-- Models Go `strings.TrimPrefix`. -/
def trimPre (s pre : String) : String :=
  if isPre pre.data s.data then ⟨s.data.drop pre.data.length⟩ else s

/-! ### Manifests (cmd/save.go, parseManifest / getFilePaths) -/

/-- One layer entry of a manifest (struct with a `digest` field). -/
structure Layer where
  Digest : String
deriving Repr, DecidableEq

/-- Parsed manifest content: config digest and layer digests
(struct Manifest). -/
structure Manifest where
  Config : Layer
  Layers : List Layer
deriving Repr, DecidableEq

/-- parseManifest (cmd/save.go): read and JSON-decode the manifest at
`path` (modelled by the oracle `rm`, `none` meaning the file cannot be read
or decoded), then collect the normalized config digest (when non-empty)
followed by the normalized non-empty layer digests, in order.  A digest is
normalized by trimming a leading `sha256:` and prepending `sha256-`. -/
def parseManifest (rm : String → Option Manifest) (path : String) :
    Except String (List String) :=
  match rm path with
  | none => .error ("failed to read manifest: " ++ path)
  | some manifest =>
    .ok ((if manifest.Config.Digest ≠ "" then
            ["sha256-" ++ trimPre manifest.Config.Digest "sha256:"]
          else []) ++
         manifest.Layers.filterMap (fun layer =>
           if layer.Digest ≠ "" then
             some ("sha256-" ++ trimPre layer.Digest "sha256:")
           else none))

/-- getFilePaths (cmd/save.go): the manifest's relative path followed by one
`blobs/...` relative path per digest from the manifest read at
`{modelPath}/manifests/{Host}/{Namespace}/{Model}/{Tag}`. -/
def getFilePaths (rm : String → Option Manifest) (modelName : ModelName)
    (modelPath : String) : Except String (List String) :=
  let manifestPath := filepathJoin
    [modelPath, "manifests", modelName.Host, modelName.Namespace, modelName.Model, modelName.Tag]
  match parseManifest rm manifestPath with
  | .error e => .error e
  | .ok blobShas =>
    .ok (filepathJoin
          ["manifests", modelName.Host, modelName.Namespace, modelName.Model, modelName.Tag] ::
         blobShas.map (fun sha => filepathJoin ["blobs", sha]))

/-! ### Filesystem state and tar entries -/

/-- A regular file as visible to this program: permission bits, byte
content, and the ownership last applied through `os.Chown` during the
modelled history (`none` = no chown applied; the creation default). -/
structure FileData where
  mode : Nat
  content : List Nat
  owner : Option (Int × Int)
deriving Repr, DecidableEq

/-- Filesystem state: regular files by path, the set of directories known
to exist, and the ownership last applied to each directory via `os.Chown`. -/
structure FS where
  files : String → Option FileData
  dirs : String → Bool
  dirOwner : String → Option (Int × Int)

/-- The empty filesystem root used for a fresh extraction. -/
def emptyFS : FS :=
  { files := fun _ => none, dirs := fun _ => false, dirOwner := fun _ => none }

/-- Kind of a tar entry relevant to this program. -/
inductive TarType
  | dir
  | reg
deriving Repr, DecidableEq

/-- One tar archive entry: name, kind, mode bits and byte content (the
header's size equals the content length). -/
structure TarEntry where
  name : String
  typeflag : TarType
  mode : Nat
  content : List Nat
deriving Repr, DecidableEq

/-- createTarball (cmd/save.go): for each relative path in order, stat the
file under `modelPath` (failing when absent), emit a header built from the
file info with `header.Name` overwritten by the relative path, and copy the
file content.  The returned list is the sequence of entries written to
standard output. -/
def createTarball (fs : FS) (modelPath : String) :
    List String → Except String (List TarEntry)
  | [] => .ok []
  | relPath :: rest =>
    let absPath := filepathJoin [modelPath, relPath]
    match fs.files absPath with
    | none => .error ("failed to stat " ++ absPath)
    | some info =>
      match createTarball fs modelPath rest with
      | .error e => .error e
      | .ok entries =>
        .ok ({ name := relPath, typeflag := TarType.reg,
               mode := info.mode, content := info.content } :: entries)

/-! ### Loading (cmd/load.go, extractTarball) and util.go -/

/-- A user database entry (os/user.User) as used here. -/
structure OsUser where
  Uid : String
deriving Repr, DecidableEq

/-- A group database entry (os/user.Group) as used here. -/
structure OsGroup where
  Gid : String
deriving Repr, DecidableEq

/-- Models Go `strconv.Atoi`: optional sign followed by at least one decimal
digit (the int-range overflow check is not modelled). -/
def atoi (s : String) : Except String Int :=
  match s.data with
  | [] => .error "invalid syntax"
  | c :: rest =>
    let sign : Int := if c = '-' then -1 else 1
    let ds := if c = '-' ∨ c = '+' then rest else c :: rest
    if ds = [] then .error "invalid syntax"
    else if ds.all (fun d => d.isDigit) then
      .ok (sign * ((ds.foldl (fun acc d => acc * 10 + (d.toNat - '0'.toNat)) 0 : Nat) : Int))
    else .error "invalid syntax"

/-- getOllamaUIDGID (cmd/util.go): look up the `ollama` user and group by
name (`none` = the account does not exist); when either lookup fails,
return `(-1, -1)` without error; otherwise parse the numeric ids. -/
def getOllamaUIDGID (userLookup : Option OsUser) (groupLookup : Option OsGroup) :
    Except String (Int × Int) :=
  match userLookup with
  | none => .ok (-1, -1)
  | some ollamaUser =>
    match groupLookup with
    | none => .ok (-1, -1)
    | some ollamaGroup =>
      match atoi ollamaUser.Uid with
      | .error e => .error ("failed to parse UID: " ++ e)
      | .ok uid =>
        match atoi ollamaGroup.Gid with
        | .error e => .error ("failed to parse GID: " ++ e)
        | .ok gid => .ok (uid, gid)

/-- The well-known system-wide models directory (cmd/util.go). -/
def systemPath : String := "/usr/share/ollama/.ollama/models"

/-- getOllamaModelsPath (cmd/util.go): `OLLAMA_MODELS` when non-empty (Go's
`os.Getenv` returns `""` when unset); otherwise the system path when it
stat-exists; otherwise `{home}/.ollama/models`. -/
def getOllamaModelsPath (envOllamaModels : String) (systemPathExists : Bool)
    (userHomeDir : Except String String) : Except String String :=
  if envOllamaModels = "" then
    if systemPathExists then .ok systemPath
    else
      match userHomeDir with
      | .error e => .error ("failed to get home directory: " ++ e)
      | .ok home => .ok (filepathJoin [home, ".ollama", "models"])
  else .ok envOllamaModels

/-- Models Go `strings.HasSuffix` via reversed character lists. -/
def hasSuffix (s suffix : String) : Bool :=
  isPre suffix.data.reverse s.data.reverse

/-- The decompression codec selected for an archive. -/
inductive Codec
  | plain
  | gzip
  | bzip2
  | xz
deriving Repr, DecidableEq

/-- Load-side error kinds, one per error site of extractTarball
(cmd/load.go). -/
inductive LoadError
  | lookupFailed (msg : String)
  | openFailed (fileName : String)
  | unsupportedFormat (fileName : String)
deriving Repr, DecidableEq

/-- The suffix dispatch of extractTarball (cmd/load.go): `.tar.xz`,
`.tar.gz`, `.tar.bz2`/`.tar.bz`, `.tar`, in the order the code checks them;
any other name is an unsupported format. -/
def selectCodec (fileName : String) : Except LoadError Codec :=
  if hasSuffix fileName ".tar.xz" then .ok Codec.xz
  else if hasSuffix fileName ".tar.gz" then .ok Codec.gzip
  else if hasSuffix fileName ".tar.bz2" || hasSuffix fileName ".tar.bz" then .ok Codec.bzip2
  else if hasSuffix fileName ".tar" then .ok Codec.plain
  else .error (LoadError.unsupportedFormat fileName)

/-- `os.MkdirAll`: the directory (and implicitly its ancestors) exists
afterwards; no-op on the file map and on recorded ownership. -/
def mkdirAll (path : String) (fs : FS) : FS :=
  { fs with dirs := fun q => if q = path then true else fs.dirs q }

/-- `os.Chown` on a directory. -/
def chownDir (path : String) (uid gid : Int) (fs : FS) : FS :=
  { fs with dirOwner := fun q => if q = path then some (uid, gid) else fs.dirOwner q }

/-- `os.OpenFile(..., O_CREATE|O_RDWR|O_TRUNC, mode)` followed by copying
the entry content: the path now holds the given mode and content, with no
chown applied yet. -/
def writeFile (path : String) (mode : Nat) (content : List Nat) (fs : FS) : FS :=
  { fs with files := fun q =>
      if q = path then some { mode := mode, content := content, owner := none }
      else fs.files q }

/-- `os.Chown` on a regular file. -/
def chownFile (path : String) (uid gid : Int) (fs : FS) : FS :=
  { fs with files := fun q =>
      if q = path then (fs.files path).map (fun fd => { fd with owner := some (uid, gid) })
      else fs.files q }

/-- The entry-processing loop of extractTarball (cmd/load.go): directory
entries are created and (when the ollama ids were found) chowned; for file
entries the parent directory is created and chowned, then the file is
created/truncated with the header's mode, filled with the entry content,
and chowned. -/
def extractEntries (uid gid : Int) (destPath : String) :
    List TarEntry → FS → FS
  | [], fs => fs
  | e :: rest, fs =>
    let targetPath := filepathJoin [destPath, e.name]
    if e.typeflag = TarType.dir then
      let fs1 := mkdirAll targetPath fs
      let fs2 := if uid ≠ -1 ∧ gid ≠ -1 then chownDir targetPath uid gid fs1 else fs1
      extractEntries uid gid destPath rest fs2
    else
      let parentDir := filepathDir targetPath
      let fs1 := mkdirAll parentDir fs
      let fs2 := if uid ≠ -1 ∧ gid ≠ -1 then chownDir parentDir uid gid fs1 else fs1
      let fs3 := writeFile targetPath e.mode e.content fs2
      let fs4 := if uid ≠ -1 ∧ gid ≠ -1 then chownFile targetPath uid gid fs3 else fs3
      extractEntries uid gid destPath rest fs4

/-- extractTarball (cmd/load.go): resolve the ollama ids, open the archive
(`contents = none` models an open failure; `some entries` the decoded tar
entry stream), select the codec by suffix, then extract every entry. -/
def extractTarball (userLookup : Option OsUser) (groupLookup : Option OsGroup)
    (contents : Option (List TarEntry)) (fileName destPath : String) (fs : FS) :
    Except LoadError FS :=
  match getOllamaUIDGID userLookup groupLookup with
  | .error e => .error (LoadError.lookupFailed e)
  | .ok (uid, gid) =>
    match contents with
    | none => .error (LoadError.openFailed fileName)
    | some entries =>
      match selectCodec fileName with
      | .error e => .error e
      | .ok _ => .ok (extractEntries uid gid destPath entries fs)

/-! ### The save command (cmd/save.go, saveCmd.RunE) -/

/-- Save-side error kinds, one per early-return site of the save command's
RunE. -/
inductive SaveError
  | refusedTerminalOutput (modelName : String)
  | invalidReference (msg : String)
  | modelsPathFailed (msg : String)
  | pathsFailed (msg : String)
  | tarballFailed (msg : String)
deriving Repr, DecidableEq

/-- saveCmd.RunE (cmd/save.go): refuse a terminal on standard output, then
parse the model name, resolve the models path, plan the file paths, and
write the tarball (returned as its entry list). -/
def runSave (stdoutIsTerminal : Bool) (modelNameStr : String)
    (envOllamaModels : String) (systemPathExists : Bool)
    (userHomeDir : Except String String) (rm : String → Option Manifest)
    (fs : FS) : Except SaveError (List TarEntry) :=
  if stdoutIsTerminal then .error (SaveError.refusedTerminalOutput modelNameStr)
  else
    match parseModelName modelNameStr with
    | .error e => .error (SaveError.invalidReference e)
    | .ok modelName =>
      match getOllamaModelsPath envOllamaModels systemPathExists userHomeDir with
      | .error e => .error (SaveError.modelsPathFailed e)
      | .ok modelPath =>
        match getFilePaths rm modelName modelPath with
        | .error e => .error (SaveError.pathsFailed e)
        | .ok filePaths =>
          match createTarball fs modelPath filePaths with
          | .error e => .error (SaveError.tarballFailed e)
          | .ok entries => .ok entries

/-! ### Auxiliary definitions used by the proofs and witnesses -/

/-- Number of capturing groups in a token sequence. -/
def capCount : List Tok → Nat
  | [] => 0
  | Tok.lit _ :: ts => capCount ts
  | Tok.plusNot _ :: ts => capCount ts + 1
  | Tok.plusDot :: ts => capCount ts + 1

/-- A one-file filesystem used to instantiate theorems at concrete inputs. -/
def sampleFS : FS :=
  { files := fun q =>
      if q = "r/blobs/sha256-aa" then some { mode := 420, content := [7, 8], owner := none }
      else none,
    dirs := fun _ => false,
    dirOwner := fun _ => none }

/-- The file value produced by extracting one regular tar entry: the
entry's mode and content, chowned exactly when the ollama ids were found. -/
def extractedFile (u g : Int) (e : TarEntry) : FileData :=
  { mode := e.mode, content := e.content,
    owner := if u ≠ -1 ∧ g ≠ -1 then some (u, g) else none }

/-- A two-file model directory (manifest plus one blob) used to instantiate
the round-trip theorem. -/
def sampleModelFS : FS :=
  { files := fun q =>
      if q = "r/manifests/h/n/m/t" then some { mode := 420, content := [1], owner := none }
      else if q = "r/blobs/sha256-aa" then some { mode := 416, content := [2, 3], owner := none }
      else none,
    dirs := fun _ => false,
    dirOwner := fun _ => none }

/-- The tar entries produced by saving `sampleModelFS`. -/
def sampleEntries : List TarEntry :=
  [{ name := "manifests/h/n/m/t", typeflag := TarType.reg, mode := 420, content := [1] },
   { name := "blobs/sha256-aa", typeflag := TarType.reg, mode := 416, content := [2, 3] }]

/-- A manifest-file oracle holding the example manifest from the spec. -/
def sampleManifestOracle : String → Option Manifest := fun p =>
  if p = "root/manifests/registry.ollama.ai/library/llama2/latest" then
    some { Config := { Digest := "sha256:aa" }, Layers := [{ Digest := "sha256:bb" }] }
  else none


/-! ### Lemmas about spanNe and matchToks -/

theorem spanNe_not_mem (c : Char) (l : List Char) (h : c ∉ l) : spanNe c l = (l, []) := by
  induction l with
  | nil => rfl
  | cons x xs ih =>
    have hx : ¬ x = c := fun hx => h (hx ▸ List.mem_cons_self x xs)
    have hxs : c ∉ xs := fun hc => h (List.mem_cons_of_mem _ hc)
    simp [spanNe, hx, ih hxs]

theorem spanNe_append (c : Char) (l r : List Char) (h : c ∉ l) :
    spanNe c (l ++ c :: r) = (l, c :: r) := by
  induction l with
  | nil => simp [spanNe]
  | cons x xs ih =>
    have hx : ¬ x = c := fun hx => h (hx ▸ List.mem_cons_self x xs)
    have hxs : c ∉ xs := fun hc => h (List.mem_cons_of_mem _ hc)
    simp [spanNe, hx, ih hxs]

theorem spanNe_snd_mem (c : Char) (s : List Char) : ∀ x ∈ (spanNe c s).2, x ∈ s := by
  induction s with
  | nil => simp [spanNe]
  | cons y ys ih =>
    intro x hx
    by_cases hy : y = c
    · subst hy
      simp [spanNe] at hx
      simpa using hx
    · simp [spanNe, hy] at hx
      exact List.mem_cons_of_mem _ (ih x hx)

theorem matchToks_none_of_lit (c : Char) :
    ∀ (ts : List Tok) (s : List Char), Tok.lit c ∈ ts → c ∉ s → matchToks ts s = none := by
  intro ts
  induction ts with
  | nil => intro s h; simp at h
  | cons t ts ih =>
    intro s hmem hs
    match t with
    | Tok.lit d =>
      cases s with
      | nil => simp [matchToks]
      | cons x xs =>
        simp only [matchToks]
        by_cases hx : x = d
        · rcases List.mem_cons.mp hmem with h1 | h1
          · cases h1
            have hcx : c ∈ x :: xs := by rw [hx]; exact List.mem_cons_self c xs
            exact absurd hcx hs
          · rw [if_pos hx]
            exact ih xs h1 (fun hc => hs (List.mem_cons_of_mem _ hc))
        · rw [if_neg hx]
    | Tok.plusNot d =>
      have h1 : Tok.lit c ∈ ts := by
        rcases List.mem_cons.mp hmem with h | h
        · cases h
        · exact h
      simp only [matchToks]
      by_cases hp : (spanNe d s).1 = []
      · rw [if_pos hp]
      · rw [if_neg hp,
          ih (spanNe d s).2 h1 (fun hc => hs (spanNe_snd_mem d s c hc))]
        rfl
    | Tok.plusDot =>
      have h1 : Tok.lit c ∈ ts := by
        rcases List.mem_cons.mp hmem with h | h
        · cases h
        · exact h
      simp only [matchToks]
      by_cases hp : (spanNe '\n' s).1 = []
      · rw [if_pos hp]
      · rw [if_neg hp,
          ih (spanNe '\n' s).2 h1 (fun hc => hs (spanNe_snd_mem '\n' s c hc))]
        rfl

theorem matchToks_some_caps :
    ∀ (ts : List Tok) (s : List Char) (caps : List (List Char)),
      matchToks ts s = some caps → caps.length = capCount ts ∧ ∀ cap ∈ caps, cap ≠ [] := by
  intro ts
  induction ts with
  | nil =>
    intro s caps h
    simp only [matchToks] at h
    by_cases hs : s = []
    · rw [if_pos hs] at h
      cases h
      simp [capCount]
    · rw [if_neg hs] at h
      cases h
  | cons t ts ih =>
    intro s caps h
    match t with
    | Tok.lit d =>
      cases s with
      | nil => simp [matchToks] at h
      | cons x xs =>
        simp only [matchToks] at h
        by_cases hx : x = d
        · rw [if_pos hx] at h
          have := ih xs caps h
          simpa [capCount] using this
        · rw [if_neg hx] at h
          cases h
    | Tok.plusNot d =>
      simp only [matchToks] at h
      by_cases hp : (spanNe d s).1 = []
      · rw [if_pos hp] at h; cases h
      · rw [if_neg hp] at h
        match hrec : matchToks ts (spanNe d s).2 with
        | none => rw [hrec] at h; cases h
        | some caps' =>
          rw [hrec] at h
          cases h
          have := ih _ caps' hrec
          refine ⟨by simp [capCount, this.1], ?_⟩
          intro cap hcap
          rcases List.mem_cons.mp hcap with h | h
          · exact h ▸ hp
          · exact this.2 cap h
    | Tok.plusDot =>
      simp only [matchToks] at h
      by_cases hp : (spanNe '\n' s).1 = []
      · rw [if_pos hp] at h; cases h
      · rw [if_neg hp] at h
        match hrec : matchToks ts (spanNe '\n' s).2 with
        | none => rw [hrec] at h; cases h
        | some caps' =>
          rw [hrec] at h
          cases h
          have := ih _ caps' hrec
          refine ⟨by simp [capCount, this.1], ?_⟩
          intro cap hcap
          rcases List.mem_cons.mp hcap with h | h
          · exact h ▸ hp
          · exact this.2 cap h

theorem match_pat1 (h n m t : List Char) (hh : h ≠ []) (hn : n ≠ []) (hm : m ≠ []) (ht : t ≠ [])
    (hhs : '/' ∉ h) (hns : '/' ∉ n) (hms : ':' ∉ m) (hts : '\n' ∉ t) :
    matchToks pat1 (h ++ '/' :: (n ++ '/' :: (m ++ ':' :: t))) = some [h, n, m, t] := by
  simp only [pat1, matchToks, spanNe_append _ _ _ hhs, spanNe_append _ _ _ hns,
    spanNe_append _ _ _ hms, spanNe_not_mem _ _ hts, if_neg hh, if_neg hn, if_neg hm, if_neg ht]
  simp [matchToks]

theorem match_pat2 (n m t : List Char) (hn : n ≠ []) (hm : m ≠ []) (ht : t ≠ [])
    (hns : '/' ∉ n) (hms : ':' ∉ m) (hts : '\n' ∉ t) :
    matchToks pat2 (n ++ '/' :: (m ++ ':' :: t)) = some [n, m, t] := by
  simp only [pat2, matchToks, spanNe_append _ _ _ hns, spanNe_append _ _ _ hms,
    spanNe_not_mem _ _ hts, if_neg hn, if_neg hm, if_neg ht]
  simp [matchToks]

theorem match_pat3 (n m : List Char) (hn : n ≠ []) (hm : m ≠ [])
    (hns : '/' ∉ n) (hms : ':' ∉ m) :
    matchToks pat3 (n ++ '/' :: m) = some [n, m] := by
  simp only [pat3, matchToks, spanNe_append _ _ _ hns, spanNe_not_mem _ _ hms,
    if_neg hn, if_neg hm]
  simp [matchToks]

theorem match_pat4 (m t : List Char) (hm : m ≠ []) (ht : t ≠ [])
    (hms : ':' ∉ m) (hts : '\n' ∉ t) :
    matchToks pat4 (m ++ ':' :: t) = some [m, t] := by
  simp only [pat4, matchToks, spanNe_append _ _ _ hms, spanNe_not_mem _ _ hts,
    if_neg hm, if_neg ht]
  simp [matchToks]

theorem match_pat5 (m : List Char) (hm : m ≠ []) (hms : ':' ∉ m) :
    matchToks pat5 m = some [m] := by
  simp only [pat5, matchToks, spanNe_not_mem _ _ hms, if_neg hm]
  simp [matchToks]

theorem parse_shape1 (h n m t : List Char) (hh : h ≠ []) (hn : n ≠ []) (hm : m ≠ []) (ht : t ≠ [])
    (hhs : '/' ∉ h) (hns : '/' ∉ n) (hms : ':' ∉ m) (hts : '\n' ∉ t) :
    parseModelName ⟨h ++ '/' :: (n ++ '/' :: (m ++ ':' :: t))⟩ =
      .ok ⟨⟨h⟩, ⟨n⟩, ⟨m⟩, ⟨t⟩⟩ := by
  have hd : (String.mk (h ++ '/' :: (n ++ '/' :: (m ++ ':' :: t)))).data
      = h ++ '/' :: (n ++ '/' :: (m ++ ':' :: t)) := rfl
  simp only [parseModelName, hd, match_pat1 h n m t hh hn hm ht hhs hns hms hts]
  simp [applyCaps, applyGroup, groups1, baseModelName]

theorem parse_shape2 (n m t : List Char) (hn : n ≠ []) (hm : m ≠ []) (ht : t ≠ [])
    (hns : '/' ∉ n) (hms : ':' ∉ m) (hts : '\n' ∉ t)
    (h1 : matchToks pat1 (n ++ '/' :: (m ++ ':' :: t)) = none) :
    parseModelName ⟨n ++ '/' :: (m ++ ':' :: t)⟩ =
      .ok ⟨"registry.ollama.ai", ⟨n⟩, ⟨m⟩, ⟨t⟩⟩ := by
  have hd : (String.mk (n ++ '/' :: (m ++ ':' :: t))).data = n ++ '/' :: (m ++ ':' :: t) := rfl
  simp only [parseModelName, hd, h1, match_pat2 n m t hn hm ht hns hms hts]
  simp [applyCaps, applyGroup, groups2, baseModelName]

theorem parse_shape3 (n m : List Char) (hn : n ≠ []) (hm : m ≠ [])
    (hns : '/' ∉ n) (hms : ':' ∉ m)
    (h1 : matchToks pat1 (n ++ '/' :: m) = none)
    (h2 : matchToks pat2 (n ++ '/' :: m) = none) :
    parseModelName ⟨n ++ '/' :: m⟩ = .ok ⟨"registry.ollama.ai", ⟨n⟩, ⟨m⟩, "latest"⟩ := by
  have hd : (String.mk (n ++ '/' :: m)).data = n ++ '/' :: m := rfl
  simp only [parseModelName, hd, h1, h2, match_pat3 n m hn hm hns hms]
  simp [applyCaps, applyGroup, groups3, baseModelName]

theorem parse_shape4 (m t : List Char) (hm : m ≠ []) (ht : t ≠ [])
    (hms : ':' ∉ m) (hts : '\n' ∉ t)
    (h1 : matchToks pat1 (m ++ ':' :: t) = none)
    (h2 : matchToks pat2 (m ++ ':' :: t) = none)
    (h3 : matchToks pat3 (m ++ ':' :: t) = none) :
    parseModelName ⟨m ++ ':' :: t⟩ = .ok ⟨"registry.ollama.ai", "library", ⟨m⟩, ⟨t⟩⟩ := by
  have hd : (String.mk (m ++ ':' :: t)).data = m ++ ':' :: t := rfl
  simp only [parseModelName, hd, h1, h2, h3, match_pat4 m t hm ht hms hts]
  simp [applyCaps, applyGroup, groups4, baseModelName]

theorem parse_shape5 (m : List Char) (hm : m ≠ []) (hms : ':' ∉ m)
    (h1 : matchToks pat1 m = none) (h2 : matchToks pat2 m = none)
    (h3 : matchToks pat3 m = none) (h4 : matchToks pat4 m = none) :
    parseModelName ⟨m⟩ = .ok ⟨"registry.ollama.ai", "library", ⟨m⟩, "latest"⟩ := by
  have hd : (String.mk m).data = m := rfl
  simp only [parseModelName, hd, h1, h2, h3, h4, match_pat5 m hm hms]
  simp [applyCaps, applyGroup, groups5, baseModelName]

theorem mk_ne_empty (l : List Char) (h : l ≠ []) : (⟨l⟩ : String) ≠ "" :=
  fun he => h (congrArg String.data he)

theorem parse_ok_model_ne (name : String) (r : ModelName)
    (h : parseModelName name = .ok r) : r.Model ≠ "" := by
  simp only [parseModelName] at h
  cases h1 : matchToks pat1 name.data with
  | some caps =>
    rw [h1] at h
    simp only [Except.ok.injEq] at h
    obtain ⟨hlen, hne⟩ := matchToks_some_caps _ _ _ h1
    have hc : capCount pat1 = 4 := rfl
    rw [hc] at hlen
    rcases caps with _ | ⟨a, _ | ⟨b, _ | ⟨c, _ | ⟨d, _ | e⟩⟩⟩⟩ <;> simp at hlen
    rw [← h]
    simp [applyCaps, applyGroup, groups1, baseModelName]
    exact mk_ne_empty c (hne c (by simp))
  | none =>
    rw [h1] at h
    cases h2 : matchToks pat2 name.data with
    | some caps =>
      rw [h2] at h
      simp only [Except.ok.injEq] at h
      obtain ⟨hlen, hne⟩ := matchToks_some_caps _ _ _ h2
      have hc : capCount pat2 = 3 := rfl
      rw [hc] at hlen
      rcases caps with _ | ⟨a, _ | ⟨b, _ | ⟨c, _ | e⟩⟩⟩ <;> simp at hlen
      rw [← h]
      simp [applyCaps, applyGroup, groups2, baseModelName]
      exact mk_ne_empty b (hne b (by simp))
    | none =>
      rw [h2] at h
      cases h3 : matchToks pat3 name.data with
      | some caps =>
        rw [h3] at h
        simp only [Except.ok.injEq] at h
        obtain ⟨hlen, hne⟩ := matchToks_some_caps _ _ _ h3
        have hc : capCount pat3 = 2 := rfl
        rw [hc] at hlen
        rcases caps with _ | ⟨a, _ | ⟨b, _ | e⟩⟩ <;> simp at hlen
        rw [← h]
        simp [applyCaps, applyGroup, groups3, baseModelName]
        exact mk_ne_empty b (hne b (by simp))
      | none =>
        rw [h3] at h
        cases h4 : matchToks pat4 name.data with
        | some caps =>
          rw [h4] at h
          simp only [Except.ok.injEq] at h
          obtain ⟨hlen, hne⟩ := matchToks_some_caps _ _ _ h4
          have hc : capCount pat4 = 2 := rfl
          rw [hc] at hlen
          rcases caps with _ | ⟨a, _ | ⟨b, _ | e⟩⟩ <;> simp at hlen
          rw [← h]
          simp [applyCaps, applyGroup, groups4, baseModelName]
          exact mk_ne_empty a (hne a (by simp))
        | none =>
          rw [h4] at h
          cases h5 : matchToks pat5 name.data with
          | some caps =>
            rw [h5] at h
            simp only [Except.ok.injEq] at h
            obtain ⟨hlen, hne⟩ := matchToks_some_caps _ _ _ h5
            have hc : capCount pat5 = 1 := rfl
            rw [hc] at hlen
            rcases caps with _ | ⟨a, _ | e⟩ <;> simp at hlen
            rw [← h]
            simp [applyCaps, applyGroup, groups5, baseModelName]
            exact mk_ne_empty a (hne a (by simp))
          | none =>
            rw [h5] at h
            cases h

theorem parse_no_colon_ok (s : List Char) (hm : s ≠ []) (hms : ':' ∉ s) :
    ∃ r, parseModelName ⟨s⟩ = .ok r := by
  have hd : (String.mk s).data = s := rfl
  have h1 : matchToks pat1 s = none :=
    matchToks_none_of_lit ':' pat1 s (by simp [pat1]) hms
  have h2 : matchToks pat2 s = none :=
    matchToks_none_of_lit ':' pat2 s (by simp [pat2]) hms
  have h4 : matchToks pat4 s = none :=
    matchToks_none_of_lit ':' pat4 s (by simp [pat4]) hms
  cases h3 : matchToks pat3 s with
  | some caps =>
    refine ⟨applyCaps groups3 caps baseModelName, ?_⟩
    simp only [parseModelName, hd, h1, h2, h3]
  | none =>
    exact ⟨_, parse_shape5 s hm hms h1 h2 h3 h4⟩

/-- C1: for every input matching one of the five accepted reference shapes
(host/namespace/model:tag, namespace/model:tag, namespace/model, model:tag,
model), tried in that fixed priority order with the first match winning,
`parseModelName` returns a reference whose captured fields equal the
corresponding input parts and whose uncaptured fields take the defaults
host = "registry.ollama.ai", namespace = "library", tag = "latest".  Each
conjunct handles one shape; the hypotheses spell out the shape's structure
(each part non-empty and free of its delimiter; a tag contains no newline,
since Go regexp `.` does not match one) and, for the later shapes, that the
earlier patterns do not match, which is exactly the priority rule. -/
theorem claim_c1_parse_shapes :
    (∀ h n m t : List Char, h ≠ [] → n ≠ [] → m ≠ [] → t ≠ [] →
      '/' ∉ h → '/' ∉ n → ':' ∉ m → '\n' ∉ t →
      parseModelName ⟨h ++ '/' :: (n ++ '/' :: (m ++ ':' :: t))⟩ = .ok ⟨⟨h⟩, ⟨n⟩, ⟨m⟩, ⟨t⟩⟩) ∧
    (∀ n m t : List Char, n ≠ [] → m ≠ [] → t ≠ [] → '/' ∉ n → ':' ∉ m → '\n' ∉ t →
      matchToks pat1 (n ++ '/' :: (m ++ ':' :: t)) = none →
      parseModelName ⟨n ++ '/' :: (m ++ ':' :: t)⟩ = .ok ⟨"registry.ollama.ai", ⟨n⟩, ⟨m⟩, ⟨t⟩⟩) ∧
    (∀ n m : List Char, n ≠ [] → m ≠ [] → '/' ∉ n → ':' ∉ m →
      matchToks pat1 (n ++ '/' :: m) = none → matchToks pat2 (n ++ '/' :: m) = none →
      parseModelName ⟨n ++ '/' :: m⟩ = .ok ⟨"registry.ollama.ai", ⟨n⟩, ⟨m⟩, "latest"⟩) ∧
    (∀ m t : List Char, m ≠ [] → t ≠ [] → ':' ∉ m → '\n' ∉ t →
      matchToks pat1 (m ++ ':' :: t) = none → matchToks pat2 (m ++ ':' :: t) = none →
      matchToks pat3 (m ++ ':' :: t) = none →
      parseModelName ⟨m ++ ':' :: t⟩ = .ok ⟨"registry.ollama.ai", "library", ⟨m⟩, ⟨t⟩⟩) ∧
    (∀ m : List Char, m ≠ [] → ':' ∉ m →
      matchToks pat1 m = none → matchToks pat2 m = none →
      matchToks pat3 m = none → matchToks pat4 m = none →
      parseModelName ⟨m⟩ = .ok ⟨"registry.ollama.ai", "library", ⟨m⟩, "latest"⟩) :=
  ⟨parse_shape1, parse_shape2, parse_shape3, parse_shape4, parse_shape5⟩

theorem claim_c1_parse_shapes_witness :
    parseModelName "llama2" = .ok ⟨"registry.ollama.ai", "library", "llama2", "latest"⟩ ∧
    parseModelName "foo/bar:v1" = .ok ⟨"registry.ollama.ai", "foo", "bar", "v1"⟩ ∧
    parseModelName "h.example.com/ns/model:tag" = .ok ⟨"h.example.com", "ns", "model", "tag"⟩ := by
  refine ⟨?_, ?_, ?_⟩
  · exact claim_c1_parse_shapes.2.2.2.2 "llama2".data (by decide) (by decide)
      (by decide) (by decide) (by decide) (by decide)
  · exact claim_c1_parse_shapes.2.1 "foo".data "bar".data "v1".data (by decide) (by decide)
      (by decide) (by decide) (by decide) (by decide) (by decide)
  · exact claim_c1_parse_shapes.1 "h.example.com".data "ns".data "model".data "tag".data
      (by decide) (by decide) (by decide) (by decide) (by decide) (by decide) (by decide) (by decide)

/-- C8: the Model field of every successfully parsed reference is
non-empty, and inputs whose model part is empty — so that no accepted shape
matches, such as "", ":" and ":latest" — fail with the invalid-reference
error. -/
theorem claim_c8_empty_model :
    (∀ (name : String) (r : ModelName), parseModelName name = .ok r → r.Model ≠ "") ∧
    parseModelName "" = .error "invalid model name format: " ∧
    parseModelName ":" = .error "invalid model name format: :" ∧
    parseModelName ":latest" = .error "invalid model name format: :latest" :=
  ⟨parse_ok_model_ne, rfl, rfl, rfl⟩

theorem claim_c8_empty_model_witness :
    (ModelName.mk "registry.ollama.ai" "library" "llama2" "latest").Model ≠ "" :=
  claim_c8_empty_model.1 "llama2" ⟨"registry.ollama.ai", "library", "llama2", "latest"⟩ rfl

/-- C10: the Model field of a parsed reference may itself contain a
slash, because the model pattern excludes only a colon: "a/b/c" parses via
the namespace/model shape to Namespace "a" and Model "b/c", and every
non-empty input containing no colon parses successfully. -/
theorem claim_c10_model_with_slash :
    parseModelName "a/b/c" = .ok ⟨"registry.ollama.ai", "a", "b/c", "latest"⟩ ∧
    ∀ s : List Char, s ≠ [] → ':' ∉ s → ∃ r, parseModelName ⟨s⟩ = .ok r :=
  ⟨rfl, parse_no_colon_ok⟩

theorem claim_c10_model_with_slash_witness :
    ∃ r, parseModelName "x//y" = .ok r :=
  claim_c10_model_with_slash.2 "x//y".data (by decide) (by decide)

/-! ### Path join lemmas -/

theorem filepathJoin_all (parts : List String) (h : ∀ p ∈ parts, p ≠ "") :
    filepathJoin parts = joinParts parts := by
  unfold filepathJoin
  congr 1
  apply List.filter_eq_self.mpr
  intro a ha
  exact decide_eq_true (h a ha)

theorem append_lit_ne_empty (a x : String) (ha : a.data ≠ []) : a ++ x ≠ "" := by
  intro h
  have hd := congrArg String.data h
  rw [String.data_append] at hd
  exact ha (List.append_eq_nil.mp hd).1

theorem join_blobs (sha : String) (h : sha ≠ "") :
    filepathJoin ["blobs", sha] = "blobs/" ++ sha := by
  rw [filepathJoin_all ["blobs", sha] (by
    intro p hp
    simp only [List.mem_cons, List.not_mem_nil, or_false] at hp
    rcases hp with h1 | h1 <;> subst h1
    · decide
    · exact h)]
  apply String.ext
  simp [joinParts, String.data_append]

theorem join_manifest (H N M T : String) (hH : H ≠ "") (hN : N ≠ "") (hM : M ≠ "") (hT : T ≠ "") :
    filepathJoin ["manifests", H, N, M, T] =
      "manifests/" ++ H ++ "/" ++ N ++ "/" ++ M ++ "/" ++ T := by
  rw [filepathJoin_all ["manifests", H, N, M, T] (by
    intro p hp
    simp only [List.mem_cons, List.not_mem_nil, or_false] at hp
    rcases hp with h1 | h1 | h1 | h1 | h1 <;> subst h1
    · decide
    · exact hH
    · exact hN
    · exact hM
    · exact hT)]
  apply String.ext
  simp [joinParts, String.data_append]

theorem sha_form_ne_empty (x : String) : "sha256-" ++ x ≠ "" :=
  append_lit_ne_empty "sha256-" x (by decide)

/-- C2: for a readable manifest whose JSON content has the shape
config-digest plus layer digests, `getFilePaths` returns the manifest's
relative path manifests/{host}/{namespace}/{model}/{tag} followed by
blobs/{norm(config)}, blobs/{norm(layer_1)}, ..., in that order, where
norm strips a leading "sha256:" and prepends "sha256-", and empty digests
are skipped. -/
theorem claim_c2_file_paths (rm : String → Option Manifest) (mn : ModelName) (root : String)
    (m : Manifest)
    (hH : mn.Host ≠ "") (hN : mn.Namespace ≠ "") (hM : mn.Model ≠ "") (hT : mn.Tag ≠ "")
    (hrm : rm (filepathJoin [root, "manifests", mn.Host, mn.Namespace, mn.Model, mn.Tag])
      = some m) :
    getFilePaths rm mn root = .ok (
      ("manifests/" ++ mn.Host ++ "/" ++ mn.Namespace ++ "/" ++ mn.Model ++ "/" ++ mn.Tag) ::
      ((if m.Config.Digest = "" then [] else ["sha256-" ++ trimPre m.Config.Digest "sha256:"]) ++
        m.Layers.filterMap (fun layer => if layer.Digest = "" then none
          else some ("sha256-" ++ trimPre layer.Digest "sha256:"))).map
        (fun sha => "blobs/" ++ sha)) := by
  have hfun : (fun layer => if layer.Digest ≠ "" then
        some ("sha256-" ++ trimPre layer.Digest "sha256:") else none)
      = (fun layer : Layer => if layer.Digest = "" then none
        else some ("sha256-" ++ trimPre layer.Digest "sha256:")) := by
    funext l
    by_cases h : l.Digest = "" <;> simp [h]
  have hcfg : (if m.Config.Digest ≠ "" then ["sha256-" ++ trimPre m.Config.Digest "sha256:"]
        else ([] : List String))
      = (if m.Config.Digest = "" then [] else ["sha256-" ++ trimPre m.Config.Digest "sha256:"]) := by
    by_cases h : m.Config.Digest = "" <;> simp [h]
  simp only [getFilePaths, parseManifest, hrm, hfun, hcfg]
  congr 1
  congr 1
  · exact join_manifest _ _ _ _ hH hN hM hT
  · apply List.map_congr_left
    intro sha hsha
    apply join_blobs
    rcases List.mem_append.mp hsha with h1 | h1
    · by_cases hc : m.Config.Digest = ""
      · rw [if_pos hc] at h1
        cases h1
      · rw [if_neg hc] at h1
        rcases List.mem_cons.mp h1 with h2 | h2
        · exact h2 ▸ sha_form_ne_empty _
        · cases h2
    · obtain ⟨l, _, hl⟩ := List.mem_filterMap.mp h1
      by_cases hd : l.Digest = ""
      · rw [if_pos hd] at hl
        cases hl
      · rw [if_neg hd] at hl
        cases hl
        exact sha_form_ne_empty _

/-! ### createTarball lemmas -/

theorem createTarball_ok_get (fs : FS) (root : String) :
    ∀ (paths : List String) (entries : List TarEntry),
      createTarball fs root paths = .ok entries →
      entries.length = paths.length ∧
      ∀ i (hp : i < paths.length) (he : i < entries.length),
        ∃ fd, fs.files (filepathJoin [root, paths.get ⟨i, hp⟩]) = some fd ∧
          entries.get ⟨i, he⟩ =
            { name := paths.get ⟨i, hp⟩, typeflag := TarType.reg,
              mode := fd.mode, content := fd.content } := by
  intro paths
  induction paths with
  | nil =>
    intro entries h
    simp only [createTarball] at h
    cases h
    exact ⟨rfl, fun i hp => absurd hp (Nat.not_lt_zero i)⟩
  | cons p rest ih =>
    intro entries h
    simp only [createTarball] at h
    cases hf : fs.files (filepathJoin [root, p]) with
    | none => rw [hf] at h; cases h
    | some fd =>
      rw [hf] at h
      cases hr : createTarball fs root rest with
      | error e => rw [hr] at h; cases h
      | ok es =>
        rw [hr] at h
        cases h
        obtain ⟨hlen, hget⟩ := ih es hr
        refine ⟨by simp [hlen], ?_⟩
        intro i hp he
        cases i with
        | zero => exact ⟨fd, hf, rfl⟩
        | succ n =>
          have hp2 : n < rest.length := Nat.lt_of_succ_lt_succ hp
          have he2 : n < es.length := Nat.lt_of_succ_lt_succ he
          exact hget n hp2 he2

theorem createTarball_total (fs : FS) (root : String) :
    ∀ (paths : List String),
      (∀ p ∈ paths, (fs.files (filepathJoin [root, p])).isSome) →
      ∃ entries, createTarball fs root paths = .ok entries := by
  intro paths
  induction paths with
  | nil => exact fun _ => ⟨[], rfl⟩
  | cons p rest ih =>
    intro h
    have hp := h p (List.mem_cons_self p rest)
    obtain ⟨fd, hfd⟩ := Option.isSome_iff_exists.mp hp
    obtain ⟨es, hes⟩ := ih (fun q hq => h q (List.mem_cons_of_mem _ hq))
    refine ⟨{ name := p, typeflag := TarType.reg, mode := fd.mode, content := fd.content } :: es, ?_⟩
    simp only [createTarball, hfd, hes]

/-- C4: for every ordered list of relative paths whose files exist under
the storage root, `createTarball` succeeds and writes exactly one entry per
listed path, in list order, each entry named by the relative path (not the
absolute on-disk path) and preserving the source file's mode bits and
size. -/
theorem claim_c4_tar_entries (fs : FS) (root : String) (paths : List String)
    (hex : ∀ p ∈ paths, (fs.files (filepathJoin [root, p])).isSome) :
    ∃ entries, createTarball fs root paths = .ok entries ∧
      entries.length = paths.length ∧
      ∀ i (hp : i < paths.length) (he : i < entries.length),
        (entries.get ⟨i, he⟩).name = paths.get ⟨i, hp⟩ ∧
        (entries.get ⟨i, he⟩).typeflag = TarType.reg ∧
        ∃ fd, fs.files (filepathJoin [root, paths.get ⟨i, hp⟩]) = some fd ∧
          (entries.get ⟨i, he⟩).mode = fd.mode ∧
          (entries.get ⟨i, he⟩).content.length = fd.content.length := by
  obtain ⟨entries, hok⟩ := createTarball_total fs root paths hex
  obtain ⟨hlen, hget⟩ := createTarball_ok_get fs root paths entries hok
  refine ⟨entries, hok, hlen, ?_⟩
  intro i hp he
  obtain ⟨fd, hfd, hentry⟩ := hget i hp he
  rw [hentry]
  exact ⟨rfl, rfl, fd, hfd, rfl, rfl⟩

theorem claim_c4_tar_entries_witness :
    ∃ entries, createTarball sampleFS "r" ["blobs/sha256-aa"] = .ok entries ∧
      entries.length = ["blobs/sha256-aa"].length ∧
      ∀ i (hp : i < ["blobs/sha256-aa"].length) (he : i < entries.length),
        (entries.get ⟨i, he⟩).name = ["blobs/sha256-aa"].get ⟨i, hp⟩ ∧
        (entries.get ⟨i, he⟩).typeflag = TarType.reg ∧
        ∃ fd, sampleFS.files (filepathJoin ["r", ["blobs/sha256-aa"].get ⟨i, hp⟩]) = some fd ∧
          (entries.get ⟨i, he⟩).mode = fd.mode ∧
          (entries.get ⟨i, he⟩).content.length = fd.content.length := by
  apply claim_c4_tar_entries
  intro p hp
  simp only [List.mem_cons, List.not_mem_nil, or_false] at hp
  subst hp
  rfl

/-! ### extractEntries lemmas -/

theorem extractEntries_files (u g : Int) (d : String) :
    ∀ (es : List TarEntry) (fs : FS) (q : String),
      (extractEntries u g d es fs).files q =
        match es.reverse.find? (fun e =>
            decide (e.typeflag = TarType.reg ∧ filepathJoin [d, e.name] = q)) with
        | some e => some (extractedFile u g e)
        | none => fs.files q := by
  intro es
  induction es with
  | nil =>
    intro fs q
    simp [extractEntries, List.find?_nil]
  | cons e rest ih =>
    intro fs q
    rw [List.reverse_cons, List.find?_append]
    by_cases ht : e.typeflag = TarType.dir
    · have hpred : (fun e2 : TarEntry =>
          decide (e2.typeflag = TarType.reg ∧ filepathJoin [d, e2.name] = q)) e = false := by
        simp [ht]
      have hstep : (extractEntries u g d (e :: rest) fs).files q
          = (extractEntries u g d rest
              (if u ≠ -1 ∧ g ≠ -1 then
                chownDir (filepathJoin [d, e.name]) u g (mkdirAll (filepathJoin [d, e.name]) fs)
              else mkdirAll (filepathJoin [d, e.name]) fs)).files q := by
        simp only [extractEntries, if_pos ht]
      rw [hstep, ih]
      have hfiles : (if u ≠ -1 ∧ g ≠ -1 then
            chownDir (filepathJoin [d, e.name]) u g (mkdirAll (filepathJoin [d, e.name]) fs)
          else mkdirAll (filepathJoin [d, e.name]) fs).files = fs.files := by
        by_cases hc : u ≠ -1 ∧ g ≠ -1 <;> simp [hc, chownDir, mkdirAll]
      rw [hfiles]
      cases hfind : rest.reverse.find? (fun e2 : TarEntry =>
          decide (e2.typeflag = TarType.reg ∧ filepathJoin [d, e2.name] = q)) with
      | some e2 => simp [Option.or]
      | none => simp [List.find?_cons, ht, Option.or]
    · have htr : e.typeflag = TarType.reg := by
        cases h2 : e.typeflag
        · exact absurd h2 ht
        · rfl
      have hstep : (extractEntries u g d (e :: rest) fs).files q
          = (extractEntries u g d rest
              (if u ≠ -1 ∧ g ≠ -1 then
                chownFile (filepathJoin [d, e.name]) u g
                  (writeFile (filepathJoin [d, e.name]) e.mode e.content
                    (if u ≠ -1 ∧ g ≠ -1 then
                      chownDir (filepathDir (filepathJoin [d, e.name])) u g
                        (mkdirAll (filepathDir (filepathJoin [d, e.name])) fs)
                    else mkdirAll (filepathDir (filepathJoin [d, e.name])) fs))
              else
                writeFile (filepathJoin [d, e.name]) e.mode e.content
                  (if u ≠ -1 ∧ g ≠ -1 then
                    chownDir (filepathDir (filepathJoin [d, e.name])) u g
                      (mkdirAll (filepathDir (filepathJoin [d, e.name])) fs)
                  else mkdirAll (filepathDir (filepathJoin [d, e.name])) fs))).files q := by
        simp only [extractEntries, if_neg ht]
      rw [hstep, ih]
      have hfiles : ∀ q2,
          (if u ≠ -1 ∧ g ≠ -1 then
            chownFile (filepathJoin [d, e.name]) u g
              (writeFile (filepathJoin [d, e.name]) e.mode e.content
                (if u ≠ -1 ∧ g ≠ -1 then
                  chownDir (filepathDir (filepathJoin [d, e.name])) u g
                    (mkdirAll (filepathDir (filepathJoin [d, e.name])) fs)
                else mkdirAll (filepathDir (filepathJoin [d, e.name])) fs))
          else
            writeFile (filepathJoin [d, e.name]) e.mode e.content
              (if u ≠ -1 ∧ g ≠ -1 then
                chownDir (filepathDir (filepathJoin [d, e.name])) u g
                  (mkdirAll (filepathDir (filepathJoin [d, e.name])) fs)
              else mkdirAll (filepathDir (filepathJoin [d, e.name])) fs)).files q2
          = if q2 = filepathJoin [d, e.name] then some (extractedFile u g e)
            else fs.files q2 := by
        intro q2
        by_cases hc : u ≠ -1 ∧ g ≠ -1
        · simp only [if_pos hc, chownFile, writeFile, chownDir, mkdirAll, extractedFile]
          by_cases hq : q2 = filepathJoin [d, e.name] <;> simp [hq, hc]
        · simp only [if_neg hc, writeFile, mkdirAll, extractedFile]
      rw [hfiles q]
      cases hfind : rest.reverse.find? (fun e2 : TarEntry =>
          decide (e2.typeflag = TarType.reg ∧ filepathJoin [d, e2.name] = q)) with
      | some e2 => simp [Option.or]
      | none =>
        simp only [Option.or]
        by_cases hq : q = filepathJoin [d, e.name]
        · rw [if_pos hq]
          simp [List.find?_cons, htr, hq]
        · rw [if_neg hq]
          have hq2 : ¬ (filepathJoin [d, e.name] = q) := fun h2 => hq h2.symm
          simp [List.find?_cons, htr, hq2]

theorem join_empty_left (x : String) (hx : x ≠ "") : filepathJoin ["", x] = x := by
  simp [filepathJoin, List.filter_cons, hx, joinParts]

theorem filepathJoin_pair_inj (d n p : String) (hn : n ≠ "") (hp : p ≠ "")
    (h : filepathJoin [d, n] = filepathJoin [d, p]) : n = p := by
  by_cases hd : d = ""
  · subst hd
    rwa [join_empty_left n hn, join_empty_left p hp] at h
  · rw [filepathJoin_all [d, n] (by
        intro x hx
        simp only [List.mem_cons, List.not_mem_nil, or_false] at hx
        rcases hx with h1 | h1 <;> subst h1
        · exact hd
        · exact hn),
      filepathJoin_all [d, p] (by
        intro x hx
        simp only [List.mem_cons, List.not_mem_nil, or_false] at hx
        rcases hx with h1 | h1 <;> subst h1
        · exact hd
        · exact hp)] at h
    simp only [joinParts] at h
    have hdata := congrArg String.data h
    simp only [String.data_append] at hdata
    exact String.ext (List.append_cancel_left hdata)

/-- C3: round trip — saving a model directory with `createTarball` and
extracting the resulting archive into an empty root with `extractTarball`
reproduces a file with identical byte content at the identical relative
path, for every saved path (ownership aside). -/
theorem claim_c3_round_trip (userL : Option OsUser) (groupL : Option OsGroup)
    (fs : FS) (root : String) (paths : List String) (entries : List TarEntry)
    (fileName dest : String) (fs2 : FS)
    (hne : ∀ p ∈ paths, p ≠ "")
    (hcr : createTarball fs root paths = .ok entries)
    (hex : extractTarball userL groupL (some entries) fileName dest emptyFS = .ok fs2) :
    ∀ p ∈ paths, ∃ fd fd2,
      fs.files (filepathJoin [root, p]) = some fd ∧
      fs2.files (filepathJoin [dest, p]) = some fd2 ∧
      fd2.content = fd.content := by
  obtain ⟨u, g, hfs2⟩ : ∃ u g, fs2 = extractEntries u g dest entries emptyFS := by
    cases hug : getOllamaUIDGID userL groupL with
    | error e => simp [extractTarball, hug] at hex
    | ok ug =>
      cases hsel : selectCodec fileName with
      | error e => simp [extractTarball, hug, hsel] at hex
      | ok c =>
        simp only [extractTarball, hug, hsel] at hex
        cases hex
        exact ⟨ug.1, ug.2, rfl⟩
  subst hfs2
  intro p hp
  obtain ⟨hlen, hget⟩ := createTarball_ok_get fs root paths entries hcr
  obtain ⟨⟨j, hjl⟩, hjp⟩ := List.mem_iff_get.mp hp
  have hjl2 : j < entries.length := by rw [hlen]; exact hjl
  obtain ⟨fd, hfd, hentry⟩ := hget j hjl hjl2
  have hmem : entries.get ⟨j, hjl2⟩ ∈ entries.reverse :=
    List.mem_reverse.mpr (entries.get_mem _ _)
  have hpredj : (fun e : TarEntry => decide (e.typeflag = TarType.reg ∧
      filepathJoin [dest, e.name] = filepathJoin [dest, p])) (entries.get ⟨j, hjl2⟩) = true := by
    rw [hentry]
    refine decide_eq_true ⟨rfl, ?_⟩
    rw [hjp]
  have hsome : (entries.reverse.find? (fun e : TarEntry => decide (e.typeflag = TarType.reg ∧
      filepathJoin [dest, e.name] = filepathJoin [dest, p]))).isSome :=
    List.find?_isSome.mpr ⟨_, hmem, hpredj⟩
  obtain ⟨e, hfinde⟩ := Option.isSome_iff_exists.mp hsome
  have hprede0 := List.find?_some hfinde
  have hprede := of_decide_eq_true hprede0
  have hememb : e ∈ entries := List.mem_reverse.mp (List.mem_of_find?_eq_some hfinde)
  obtain ⟨⟨k, hkl⟩, hke⟩ := List.mem_iff_get.mp hememb
  have hkl2 : k < paths.length := by rw [← hlen]; exact hkl
  obtain ⟨fd2, hfd2, hentry2⟩ := hget k hkl2 hkl
  have hnamek : e.name = paths.get ⟨k, hkl2⟩ := by rw [← hke, hentry2]
  have hpk : paths.get ⟨k, hkl2⟩ = p := by
    apply filepathJoin_pair_inj dest _ p (hne _ (paths.get_mem _ _)) (hne p hp)
    rw [← hnamek]
    exact hprede.2
  have hfdeq : fd2 = fd := by
    rw [hpk] at hfd2
    rw [hjp] at hfd
    rw [hfd] at hfd2
    exact (Option.some.inj hfd2).symm
  refine ⟨fd, extractedFile u g e, ?_, ?_, ?_⟩
  · rw [← hjp]
    exact hfd
  · rw [extractEntries_files u g dest entries emptyFS (filepathJoin [dest, p]), hfinde]
  · rw [← hke, hentry2]
    simp [extractedFile, hfdeq]

theorem claim_c3_round_trip_witness :
    ∃ fd fd2,
      sampleModelFS.files (filepathJoin ["r", "blobs/sha256-aa"]) = some fd ∧
      (extractEntries (-1) (-1) "d" sampleEntries emptyFS).files
        (filepathJoin ["d", "blobs/sha256-aa"]) = some fd2 ∧
      fd2.content = fd.content :=
  claim_c3_round_trip none none sampleModelFS "r" ["manifests/h/n/m/t", "blobs/sha256-aa"]
    sampleEntries "m.tar" "d" (extractEntries (-1) (-1) "d" sampleEntries emptyFS)
    (by
      intro p hp
      simp only [List.mem_cons, List.not_mem_nil, or_false] at hp
      rcases hp with h | h <;> subst h <;> decide)
    rfl rfl "blobs/sha256-aa" (by simp)

/-! ### C7: missing ollama account skips ownership changes -/

theorem extractEntries_skip_chown (d : String) :
    ∀ (es : List TarEntry) (fs : FS),
      (extractEntries (-1) (-1) d es fs).dirOwner = fs.dirOwner ∧
      ∀ q, (extractEntries (-1) (-1) d es fs).files q = fs.files q ∨
        ∃ fd, (extractEntries (-1) (-1) d es fs).files q = some fd ∧ fd.owner = none := by
  intro es
  induction es with
  | nil => exact fun fs => ⟨rfl, fun q => Or.inl rfl⟩
  | cons e rest ih =>
    intro fs
    have hc : ¬ ((-1 : Int) ≠ -1 ∧ (-1 : Int) ≠ -1) := by simp
    by_cases ht : e.typeflag = TarType.dir
    · have hstep : extractEntries (-1) (-1) d (e :: rest) fs
          = extractEntries (-1) (-1) d rest (mkdirAll (filepathJoin [d, e.name]) fs) := by
        simp only [extractEntries, if_pos ht, if_neg hc]
      rw [hstep]
      obtain ⟨hdo, hfi⟩ := ih (mkdirAll (filepathJoin [d, e.name]) fs)
      refine ⟨by rw [hdo]; rfl, ?_⟩
      intro q
      rcases hfi q with h | h
      · exact Or.inl h
      · exact Or.inr h
    · have hstep : extractEntries (-1) (-1) d (e :: rest) fs
          = extractEntries (-1) (-1) d rest
              (writeFile (filepathJoin [d, e.name]) e.mode e.content
                (mkdirAll (filepathDir (filepathJoin [d, e.name])) fs)) := by
        simp only [extractEntries, if_neg ht, if_neg hc]
      rw [hstep]
      obtain ⟨hdo, hfi⟩ := ih (writeFile (filepathJoin [d, e.name]) e.mode e.content
        (mkdirAll (filepathDir (filepathJoin [d, e.name])) fs))
      refine ⟨by rw [hdo]; rfl, ?_⟩
      intro q
      rcases hfi q with h | h
      · rw [h]
        by_cases hq : q = filepathJoin [d, e.name]
        · refine Or.inr ⟨{ mode := e.mode, content := e.content, owner := none }, ?_, rfl⟩
          simp [writeFile, mkdirAll, hq]
        · refine Or.inl ?_
          simp [writeFile, mkdirAll, hq]
      · exact Or.inr h

/-- C7: when the ollama user or group lookup fails during load,
extraction still proceeds and completes without error, no directory
ownership is touched, and every file it created or overwrote carries no
chown: the lookup failure is never surfaced as an error. -/
theorem claim_c7_missing_account (userL : Option OsUser) (groupL : Option OsGroup)
    (hmiss : userL = none ∨ groupL = none)
    (entries : List TarEntry) (fileName destPath : String) (fs : FS) (c : Codec)
    (hsel : selectCodec fileName = .ok c) :
    ∃ fs2, extractTarball userL groupL (some entries) fileName destPath fs = .ok fs2 ∧
      fs2.dirOwner = fs.dirOwner ∧
      ∀ q, fs2.files q = fs.files q ∨ ∃ fd, fs2.files q = some fd ∧ fd.owner = none := by
  have hug : getOllamaUIDGID userL groupL = .ok (-1, -1) := by
    rcases hmiss with h | h
    · subst h
      rfl
    · subst h
      cases userL <;> rfl
  refine ⟨extractEntries (-1) (-1) destPath entries fs, ?_, ?_, ?_⟩
  · simp only [extractTarball, hug, hsel]
  · exact (extractEntries_skip_chown destPath entries fs).1
  · exact (extractEntries_skip_chown destPath entries fs).2

theorem claim_c7_missing_account_witness :
    ∃ fs2, extractTarball none (some { Gid := "107" }) (some sampleEntries) "m.tar" "d" emptyFS
        = .ok fs2 ∧
      fs2.dirOwner = emptyFS.dirOwner ∧
      ∀ q, fs2.files q = emptyFS.files q ∨ ∃ fd, fs2.files q = some fd ∧ fd.owner = none :=
  claim_c7_missing_account none (some { Gid := "107" }) (Or.inl rfl)
    sampleEntries "m.tar" "d" emptyFS Codec.plain rfl

/-! ### C5: codec selection and unsupported formats -/

theorem isPre_total : ∀ (r a b : List Char),
    isPre a r = true → isPre b r = true → isPre a b = true ∨ isPre b a = true := by
  intro r
  induction r with
  | nil =>
    intro a b ha hb
    cases a with
    | nil => exact Or.inl rfl
    | cons x xs => exact absurd ha (by simp [isPre])
  | cons c rs ih =>
    intro a b ha hb
    cases a with
    | nil => exact Or.inl rfl
    | cons x xs =>
      cases b with
      | nil => exact Or.inr rfl
      | cons y ys =>
        simp only [isPre, Bool.and_eq_true, decide_eq_true_eq] at ha hb
        rcases ih xs ys ha.2 hb.2 with h | h
        · exact Or.inl (by simp [isPre, ha.1, hb.1, h])
        · exact Or.inr (by simp [isPre, ha.1, hb.1, h])

theorem hasSuffix_excl (s a b : String)
    (hab : isPre a.data.reverse b.data.reverse = false)
    (hba : isPre b.data.reverse a.data.reverse = false)
    (ha : hasSuffix s a = true) : hasSuffix s b = false := by
  by_contra hcon
  have hb : hasSuffix s b = true := by
    cases h : hasSuffix s b
    · exact absurd h hcon
    · rfl
  rcases isPre_total s.data.reverse a.data.reverse b.data.reverse ha hb with h1 | h1
  · rw [h1] at hab
    cases hab
  · rw [h1] at hba
    cases hba

/-- C5: loading an archive whose name ends in none of .tar, .tar.gz,
.tar.bz, .tar.bz2, .tar.xz fails — with the unsupported-format error when
the file is openable — and never returns a filesystem (so no filesystem
change is possible); for names ending in one of those suffixes the
corresponding codec (plain, gzip, bzip2, xz) is selected. -/
theorem claim_c5_codec_selection :
    (∀ (userL : Option OsUser) (groupL : Option OsGroup) (ug : Int × Int)
        (contents : Option (List TarEntry)) (fileName destPath : String) (fs : FS)
        (es : List TarEntry),
      getOllamaUIDGID userL groupL = .ok ug →
      hasSuffix fileName ".tar.xz" = false → hasSuffix fileName ".tar.gz" = false →
      hasSuffix fileName ".tar.bz2" = false → hasSuffix fileName ".tar.bz" = false →
      hasSuffix fileName ".tar" = false →
      (contents = some es →
        extractTarball userL groupL contents fileName destPath fs
          = .error (LoadError.unsupportedFormat fileName)) ∧
      ∀ fs2, extractTarball userL groupL contents fileName destPath fs ≠ .ok fs2) ∧
    (∀ fileName : String,
      (hasSuffix fileName ".tar.xz" = true → selectCodec fileName = .ok Codec.xz) ∧
      (hasSuffix fileName ".tar.gz" = true → selectCodec fileName = .ok Codec.gzip) ∧
      (hasSuffix fileName ".tar.bz2" = true → selectCodec fileName = .ok Codec.bzip2) ∧
      (hasSuffix fileName ".tar.bz" = true → selectCodec fileName = .ok Codec.bzip2) ∧
      (hasSuffix fileName ".tar" = true → selectCodec fileName = .ok Codec.plain)) := by
  constructor
  · intro userL groupL ug contents fileName destPath fs es hug hxz hgz hbz2 hbz htar
    have hsel : selectCodec fileName = .error (LoadError.unsupportedFormat fileName) := by
      simp [selectCodec, hxz, hgz, hbz2, hbz, htar]
    constructor
    · intro hcon
      subst hcon
      cases ug with
      | mk u g => simp [extractTarball, hug, hsel]
    · intro fs2 hcon
      cases contents with
      | none =>
        cases ug with
        | mk u g => simp [extractTarball, hug] at hcon
      | some es2 =>
        cases ug with
        | mk u g => simp [extractTarball, hug, hsel] at hcon
  · intro fileName
    refine ⟨?_, ?_, ?_, ?_, ?_⟩
    · intro h
      simp [selectCodec, h]
    · intro h
      have hxz := hasSuffix_excl fileName ".tar.gz" ".tar.xz" (by decide) (by decide) h
      simp [selectCodec, h, hxz]
    · intro h
      have hxz := hasSuffix_excl fileName ".tar.bz2" ".tar.xz" (by decide) (by decide) h
      have hgz := hasSuffix_excl fileName ".tar.bz2" ".tar.gz" (by decide) (by decide) h
      simp [selectCodec, h, hxz, hgz]
    · intro h
      have hxz := hasSuffix_excl fileName ".tar.bz" ".tar.xz" (by decide) (by decide) h
      have hgz := hasSuffix_excl fileName ".tar.bz" ".tar.gz" (by decide) (by decide) h
      simp [selectCodec, h, hxz, hgz]
    · intro h
      have hxz := hasSuffix_excl fileName ".tar" ".tar.xz" (by decide) (by decide) h
      have hgz := hasSuffix_excl fileName ".tar" ".tar.gz" (by decide) (by decide) h
      have hbz2 := hasSuffix_excl fileName ".tar" ".tar.bz2" (by decide) (by decide) h
      have hbz := hasSuffix_excl fileName ".tar" ".tar.bz" (by decide) (by decide) h
      simp [selectCodec, h, hxz, hgz, hbz2, hbz]

theorem claim_c5_codec_selection_witness :
    extractTarball none none (some sampleEntries) "model.zip" "d" emptyFS
      = .error (LoadError.unsupportedFormat "model.zip") ∧
    selectCodec "model.tar.gz" = .ok Codec.gzip :=
  ⟨(claim_c5_codec_selection.1 none none (-1, -1) (some sampleEntries) "model.zip" "d"
      emptyFS sampleEntries rfl (by decide) (by decide) (by decide) (by decide) (by decide)).1 rfl,
   (claim_c5_codec_selection.2 "model.tar.gz").2.1 (by decide)⟩

/-! ### C6: terminal refusal happens first -/

/-- C6: whenever standard output is a terminal, the save command fails
with the refused-terminal-output error, whatever the model-name argument,
environment, home directory, manifest contents and filesystem — the result
does not depend on any of them, so the refusal happens before any file
I/O. -/
theorem claim_c6_terminal_refusal (modelNameStr : String) (envOllamaModels : String)
    (systemPathExists : Bool) (userHomeDir : Except String String)
    (rm : String → Option Manifest) (fs : FS) :
    runSave true modelNameStr envOllamaModels systemPathExists userHomeDir rm fs
      = .error (SaveError.refusedTerminalOutput modelNameStr) := rfl

/-! ### C9: models path resolution -/

/-- C9: model-storage root resolution — a non-empty OLLAMA_MODELS value
is returned as the root; when it is unset, the well-known system-wide path
is used when the stat existence test succeeds, and only otherwise does
resolution fall back to {home}/.ollama/models. -/
theorem claim_c9_models_path :
    (∀ (env : String) (sysEx : Bool) (home : Except String String),
      env ≠ "" → getOllamaModelsPath env sysEx home = .ok env) ∧
    (∀ home, getOllamaModelsPath "" true home = .ok systemPath) ∧
    (∀ home : String, getOllamaModelsPath "" false (.ok home)
      = .ok (filepathJoin [home, ".ollama", "models"])) := by
  refine ⟨?_, ?_, ?_⟩
  · intro env sysEx home h
    simp [getOllamaModelsPath, h]
  · intro home
    rfl
  · intro home
    rfl

theorem claim_c9_models_path_witness :
    getOllamaModelsPath "/custom/models" false (.ok "/home/u") = .ok "/custom/models" ∧
    getOllamaModelsPath "" true (.ok "/home/u") = .ok systemPath ∧
    getOllamaModelsPath "" false (.ok "/home/u")
      = .ok (filepathJoin ["/home/u", ".ollama", "models"]) :=
  ⟨claim_c9_models_path.1 "/custom/models" false (.ok "/home/u") (by decide),
   claim_c9_models_path.2.1 (.ok "/home/u"),
   claim_c9_models_path.2.2 "/home/u"⟩

theorem claim_c2_file_paths_witness :
    getFilePaths sampleManifestOracle
      { Host := "registry.ollama.ai", Namespace := "library", Model := "llama2", Tag := "latest" }
      "root"
    = .ok ["manifests/registry.ollama.ai/library/llama2/latest",
           "blobs/sha256-aa", "blobs/sha256-bb"] := by
  have h := claim_c2_file_paths sampleManifestOracle
    { Host := "registry.ollama.ai", Namespace := "library", Model := "llama2", Tag := "latest" }
    "root" { Config := { Digest := "sha256:aa" }, Layers := [{ Digest := "sha256:bb" }] }
    (by decide) (by decide) (by decide) (by decide) rfl
  rw [h]
  congr 1
